import Mathlib

/-!
Verification of the tag-reconciliation core of the MP3 library utilities.

The development shallowly embeds the two reconciliation routines and the
location resolver of the repository:

* `clean_mp3_metadata` (from `clean_mp3_metadata.py`): allow-list driven
  deletion of ID3 tags,
* `update_mp3_tags` (from `rekordbox_to_mp3.py`): overwrite of the BPM/key
  tags from a Rekordbox XML export,
* `parse_rekordbox_location` (from `rekordbox_to_mp3.py`): file-URI
  location decoding.

A tag collection is modelled as an association list from hash keys
(mutagen's `HashKey` strings such as `TBPM` or `TXXX:INITIALKEY`) to the
frame payload, which the reconciliation logic treats as an opaque string.
In a real mutagen `ID3` dictionary the keys are unique; the list model is
the natural lift to arbitrary lists, with deletion removing every entry
having the key.  The on-disk state of a file is an `Option TagCollection`:
`none` models a file with no ID3 container at all (mutagen's
`audio.tags is None`), `some ts` a container holding the tags `ts`.
-/

/-- A single ID3 tag: mutagen hash key paired with its (opaque) payload. -/
abbrev TagEntry := String × String

/-- The tags attached to one file, in container order. -/
abbrev TagCollection := List TagEntry

/-- Model of Python `s.startswith(pre)`: Python strings are sequences of
code points, so this is list-prefix testing on the characters. -/
def startswith (s pre : String) : Bool :=
  pre.data.isPrefixOf s.data

/-! ## Allow-list reconciliation (`clean_mp3_metadata.py`) -/

/-- A key belongs to the cover-art family.  Mutagen's `HashKey` for an
`APIC` frame is `"APIC:" ++ desc` (the descriptor may be empty), so the
family is exactly the keys carrying the `APIC:` prefix; this is also the
test the source performs (`tag.startswith('APIC:')`). -/
def isCoverArtKey (tag : String) : Bool :=
  startswith tag "APIC:"

/-- Decision taken by the loop body of `clean_mp3_metadata` for one key:
`TXXX:` extended keys are deleted unless listed verbatim, `APIC:` keys are
always kept (`continue`), every other key is deleted unless listed. -/
def shouldDelete (keep : List String) (tag : String) : Bool :=
  if startswith tag "TXXX:" then decide (tag ∉ keep)
  else if startswith tag "APIC:" then false
  else decide (tag ∉ keep)

/-- The keys the cleanup pass deletes from a collection. -/
def deleteSetKeys (tags : TagCollection) (keep : List String) : List String :=
  (tags.map Prod.fst).filter (shouldDelete keep)

/-- The tags still present after the cleanup pass deleted its keys. -/
def survivingTags (tags : TagCollection) (keep : List String) : TagCollection :=
  tags.filter (fun p => !(shouldDelete keep p.1))

/-- Return value of `clean_mp3_metadata`: the source returns `True` when
the file has no tag container at all, otherwise the number of removed
tags.  (`False`, returned when mutagen raises, models an I/O failure of
the surrounding driver and is unreachable for the pure tag logic.) -/
inductive CleanResult
  | noTags
  | removed (n : Nat)
deriving DecidableEq

/-- `clean_mp3_metadata`, acting on the persistent (on-disk) tag state of
one file.  When tags were removed the file is saved (`v2_version=4`),
otherwise the on-disk state is untouched. -/
def clean_mp3_metadata (disk : Option TagCollection) (keep : List String) :
    Option TagCollection × CleanResult :=
  match disk with
  | none => (none, CleanResult.noTags)
  | some tags =>
      let removed := (deleteSetKeys tags keep).length
      if removed > 0 then (some (survivingTags tags keep), CleanResult.removed removed)
      else (some tags, CleanResult.removed 0)

/-- How `main` of `clean_mp3_metadata.py` accounts one file's result.
The source tests `result is False` for errors and `result > 0` for a
cleaned file; the `True` returned for a file with no container is not
`False` and compares `> 0` (Python `True == 1`), so such a file is
counted as cleaned with one tag, never as an error. -/
inductive FileReport
  | fileError
  | cleaned (n : Nat)
  | noChange
deriving DecidableEq

/-- Dispatch of `main` on the per-file result of `clean_mp3_metadata`. -/
def mainDispatch : CleanResult → FileReport
  | CleanResult.noTags => FileReport.cleaned 1
  | CleanResult.removed 0 => FileReport.noChange
  | CleanResult.removed (n + 1) => FileReport.cleaned (n + 1)

/-- The allow-list hardcoded in `get_tags_to_keep`. -/
def get_tags_to_keep : List String :=
  ["TALB", "TPE2", "TPE1", "TCMP", "APIC", "TRCK", "TIT2", "TDRC", "TYER",
   "COMM", "TCON", "TIT1", "TCOM", "TMOO", "TPOS", "TBPM", "TKEY",
   "TXXX:BPM", "TXXX:INITIALKEY", "TXXX:MOOD", "TXXX:GROUPING",
   "TXXX:ALBUMARTIST", "TXXX:COMPILATION"]

/-! ## BPM/key overwrite (`rekordbox_to_mp3.py`)

`update_mp3_tags` deletes the four BPM/key related frames if present,
parses the raw BPM string with Python's `float`, truncates with `int`,
adds the three replacement frames and saves.  The `float`/`int` pair is
modelled over exact rationals: `pyFloat` accepts exactly the finite ASCII
decimal literals Python's `float` accepts (optional surrounding
whitespace, optional sign, digits with single underscores between them,
optional fractional part, optional decimal exponent) and yields the exact
rational value.  Deviations from CPython are confined to cases whose
observable outcome is nevertheless identical or out of reach of BPM data:
`inf`/`infinity`/`nan` spellings and magnitudes at or beyond the double
overflow bound parse to `none` here, while CPython's `float` returns an
infinity or NaN on which the subsequent `int` call raises, producing the
same per-file failure; and the value is kept exact rather than rounded to
the nearest IEEE double, which can shift the truncation only for inputs
carrying more significant digits than a double can hold. -/

/-- Model of `if k in audio.tags: del audio.tags[k]`: removes the entry
with hash key `k` (the keys of a mutagen dictionary are unique; on lists
this removes every entry with the key). -/
def eraseTag (t : TagCollection) (k : String) : TagCollection :=
  t.filter (fun p => !(p.1 == k))

/-- Model of mutagen `tags.add(frame)`, i.e. dictionary assignment at the
frame's hash key: replaces the payload in place when the key is present,
otherwise appends the new entry at the end. -/
def setItem (t : TagCollection) (k v : String) : TagCollection :=
  if t.any (fun p => p.1 == k) then t.map (fun p => if p.1 == k then (k, v) else p)
  else t ++ [(k, v)]

/-- Whitespace accepted by Python around a float literal (ASCII part). -/
def isPySpace (c : Char) : Bool :=
  c == ' ' || c == '\t' || c == '\n' || c == '\r' || c == '\x0b' || c == '\x0c'

/-- Strip surrounding whitespace from a character sequence. -/
def stripWs (l : List Char) : List Char :=
  ((l.dropWhile isPySpace).reverse.dropWhile isPySpace).reverse

/-- Numeric value of an ASCII digit. -/
def digVal (c : Char) : Nat := c.toNat - 48

/-- Continuation of a digit group: after an initial digit, underscores may
occur singly and only between digits. -/
def validUDigitsAux : List Char → Bool
  | [] => true
  | ['_'] => false
  | '_' :: c :: rest => c.isDigit && validUDigitsAux rest
  | c :: rest => c.isDigit && validUDigitsAux rest

/-- A nonempty digit group in Python literal syntax: digits with single
underscores strictly between digits. -/
def validUDigits : List Char → Bool
  | [] => false
  | c :: rest => c.isDigit && validUDigitsAux rest

/-- Value of a digit group, ignoring the grouping underscores. -/
def udigitsVal (l : List Char) : Nat :=
  (l.filter (fun c => !(c == '_'))).foldl (fun a c => 10 * a + digVal c) 0

/-- Split off an optional sign; `true` means negative. -/
def parseSign : List Char → Bool × List Char
  | '+' :: r => (false, r)
  | '-' :: r => (true, r)
  | l => (false, l)

/-- Number of digits in a fractional digit group (underscores carry no
place value). -/
def fracDigits (fp : List Char) : Nat := (fp.filter Char.isDigit).length

/-- Parse the mantissa `intpart[.fracpart]` of a float literal; returns
the digits' combined value together with the fractional digit count. -/
def parseMantissa (l : List Char) : Option (Nat × Nat) :=
  let ip := l.takeWhile (fun c => !(c == '.'))
  let rest := l.dropWhile (fun c => !(c == '.'))
  match rest with
  | [] => if validUDigits ip then some (udigitsVal ip, 0) else none
  | _ :: fp =>
      if fp.contains '.' then none
      else if ip.isEmpty then
        if validUDigits fp then some (udigitsVal fp, fracDigits fp) else none
      else if fp.isEmpty then
        if validUDigits ip then some (udigitsVal ip, 0) else none
      else if validUDigits ip && validUDigits fp then
        some (udigitsVal ip * 10 ^ fracDigits fp + udigitsVal fp, fracDigits fp)
      else none

/-- Parse the optional exponent suffix `e[±]digits` of a float literal. -/
def parseExpPart : List Char → Option Int
  | [] => some 0
  | c :: r =>
      if c == 'e' || c == 'E' then
        let sr := parseSign r
        if validUDigits sr.2 then
          some (if sr.1 then -(udigitsVal sr.2 : Int) else (udigitsVal sr.2 : Int))
        else none
      else none

/-- Smallest magnitude that rounds to infinity under IEEE double
round-to-nearest, the point where CPython's `float` overflows: the
decimal literal is `2 ^ 1024 - 2 ^ 970`, spelled out so that it
evaluates without large exponentiation. -/
def doubleOverflowBound : ℚ :=
  mkRat 179769313486231580793728971405303415079934132710037826936173778980444968292764750946649017977587207096330286416692887910946555547851940402630657488671505820681908902000708383676273854845817711531764475730270069855571366959622842914819860834936475292719074168444365510704342711559699508093042880177904174497792 1

/-- Model of Python `float(s)` restricted to finite results, as exact
rationals (see the section comment for the exact relationship). -/
def pyFloat (s : String) : Option ℚ :=
  let l := stripWs s.data
  let sgn := parseSign l
  let m := sgn.2.takeWhile (fun c => !(c == 'e' || c == 'E'))
  let rest := sgn.2.dropWhile (fun c => !(c == 'e' || c == 'E'))
  match parseMantissa m, parseExpPart rest with
  | some vf, some e =>
      let mag : ℚ :=
        if (vf.2 : Int) ≤ e then mkRat ((vf.1 * 10 ^ (e - (vf.2 : Int)).toNat : ℕ) : Int) 1
        else mkRat (vf.1 : Int) (10 ^ ((vf.2 : Int) - e).toNat)
      let q := if sgn.1 then -mag else mag
      if doubleOverflowBound ≤ (if q < 0 then -q else q) then none else some q
  | _, _ => none

/-- Truncation toward zero of a rational: the behaviour of Python's
`int` on a finite float. -/
def ratTrunc (q : ℚ) : Int := q.num.tdiv q.den

/-- Outcome of `update_mp3_tags` for one file: `True`, or `False` after
the `ValueError` of a malformed BPM string was caught.  (As in the model
of the cleanup tool, I/O failures of mutagen itself are environmental and
out of scope.) -/
inductive UpdateResult
  | success
  | invalidBpmFormat
deriving DecidableEq

/-- The four hash keys the overwrite pass deletes before re-adding. -/
def bpmDelKeys : List String := ["TBPM", "TKEY", "TXXX:BPM", "TXXX:INITIALKEY"]

/-- The four guarded `del` statements of `update_mp3_tags`, in source
order. -/
def erase4 (t : TagCollection) : TagCollection :=
  eraseTag (eraseTag (eraseTag (eraseTag t "TBPM") "TKEY") "TXXX:BPM") "TXXX:INITIALKEY"

/-- `update_mp3_tags`, acting on the persistent tag state of one file.
A missing container is replaced by an empty one (`audio.add_tags()`); the
four stale frames are deleted; then `str(int(float(bpm)))` is computed —
when that raises, the exception handler returns `False` before
`audio.save` ran, so the on-disk state is the untouched input — and the
three replacement frames are added and saved (`v2_version=3`). -/
def update_mp3_tags (disk : Option TagCollection) (bpm key : String) :
    Option TagCollection × UpdateResult :=
  let tags0 := disk.getD []
  let tags1 := erase4 tags0
  match pyFloat bpm with
  | none => (disk, UpdateResult.invalidBpmFormat)
  | some q =>
      let bpm_int := toString (ratTrunc q)
      let tags2 :=
        setItem (setItem (setItem tags1 "TBPM" bpm_int) "TKEY" key) "TXXX:INITIALKEY" key
      (some tags2, UpdateResult.success)

example : pyFloat "95.4" = some (mkRat 477 5) := by decide
example : pyFloat "127.9" = some (mkRat 1279 10) := by decide
example : pyFloat "abc" = none := by decide
example : pyFloat " -12_5.2_5e1 " = some (mkRat (-25050) 20) := by decide
example : pyFloat "1_0" = some (mkRat 10 1) := by decide
example : pyFloat "." = none := by decide
example : pyFloat "1._5" = none := by decide
example : pyFloat "1.e2" = some (mkRat 100 1) := by decide
example : pyFloat "inf" = none := by decide
example : ratTrunc (mkRat 1279 10) = 127 := by decide
example : ratTrunc (mkRat (-1) 2) = 0 := by decide
example : toString (ratTrunc (mkRat 477 5)) = "95" := by decide

/-! ## Location resolver (`parse_rekordbox_location`)

The resolver works on Python strings, i.e. sequences of code points,
modelled as `List Char`.  Percent-decoding follows `urllib.parse.unquote`:
each maximal run of consecutive `%XX` escapes is decoded to bytes and
UTF-8 decoded with `errors='replace'`; a `%` not followed by two hex
digits passes through literally. -/

/-- The characters of the local-host file prefix. -/
def lhChars : List Char := "file://localhost".data

/-- The characters of the bare file-scheme prefix. -/
def fsChars : List Char := "file://".data

/-- The prefix-stripping head of `parse_rekordbox_location`: the
local-host form first, then the bare scheme, otherwise unchanged
(`location[len(p):]` slices code points, i.e. drops characters). -/
def stripFileScheme (l : List Char) : List Char :=
  if lhChars.isPrefixOf l then l.drop lhChars.length
  else if fsChars.isPrefixOf l then l.drop fsChars.length
  else l

/-- Hexadecimal value of a character, if any. -/
def hexVal? (c : Char) : Option Nat :=
  if c.isDigit then some (c.toNat - 48)
  else if 'a' ≤ c ∧ c ≤ 'f' then some (c.toNat - 87)
  else if 'A' ≤ c ∧ c ≤ 'F' then some (c.toNat - 55)
  else none

/-- One lexical unit of percent-decoding: a literal character, or one
byte decoded from a `%XX` escape. -/
inductive UriTok
  | chr (c : Char)
  | byte (b : Nat)
deriving DecidableEq

/-- Tokenize for percent-decoding: a `%` followed by two hex digits
yields a byte, any other character (including a `%` without a valid
escape) passes through literally. -/
def pctTokens : List Char → List UriTok
  | [] => []
  | '%' :: c1 :: c2 :: rest =>
      match hexVal? c1, hexVal? c2 with
      | some a, some b => UriTok.byte (16 * a + b) :: pctTokens rest
      | _, _ => UriTok.chr '%' :: pctTokens (c1 :: c2 :: rest)
  | c :: rest => UriTok.chr c :: pctTokens rest

/-- The Unicode replacement character U+FFFD. -/
def replChar : Char := Char.ofNat 0xFFFD

/-- A UTF-8 continuation byte. -/
def isCont (b : Nat) : Bool := decide (0x80 ≤ b) && decide (b ≤ 0xBF)

/-- Valid second byte of a three-byte sequence headed by `b1` (the
shortest-form and surrogate exclusions of RFC 3629). -/
def isCont3 (b1 b2 : Nat) : Bool :=
  if b1 == 0xE0 then decide (0xA0 ≤ b2) && decide (b2 ≤ 0xBF)
  else if b1 == 0xED then decide (0x80 ≤ b2) && decide (b2 ≤ 0x9F)
  else isCont b2

/-- Valid second byte of a four-byte sequence headed by `b1`. -/
def isCont4 (b1 b2 : Nat) : Bool :=
  if b1 == 0xF0 then decide (0x90 ≤ b2) && decide (b2 ≤ 0xBF)
  else if b1 == 0xF4 then decide (0x80 ≤ b2) && decide (b2 ≤ 0x8F)
  else isCont b2

/-- UTF-8 decoding of a byte run with U+FFFD replacement: on a malformed
sequence one replacement character stands for the maximal well-formed
part consumed (lead byte plus any valid continuations), as CPython's
`errors='replace'` handler does.  The `fuel` argument makes the
recursion structural; every step consumes at least one byte and exactly
one unit of fuel, so fuel equal to the run length never runs out. -/
def utf8DecodeF : Nat → List Nat → List Char
  | 0, _ => []
  | _, [] => []
  | fuel + 1, b :: rest =>
      if b < 0x80 then Char.ofNat b :: utf8DecodeF fuel rest
      else if 0xC2 ≤ b ∧ b ≤ 0xDF then
        match rest with
        | [] => [replChar]
        | b2 :: r2 =>
            if isCont b2 then
              Char.ofNat ((b - 0xC0) * 0x40 + (b2 - 0x80)) :: utf8DecodeF fuel r2
            else replChar :: utf8DecodeF fuel (b2 :: r2)
      else if 0xE0 ≤ b ∧ b ≤ 0xEF then
        match rest with
        | [] => [replChar]
        | b2 :: r2 =>
            if isCont3 b b2 then
              match r2 with
              | [] => [replChar]
              | b3 :: r3 =>
                  if isCont b3 then
                    Char.ofNat (((b - 0xE0) * 0x40 + (b2 - 0x80)) * 0x40 + (b3 - 0x80)) ::
                      utf8DecodeF fuel r3
                  else replChar :: utf8DecodeF fuel (b3 :: r3)
            else replChar :: utf8DecodeF fuel (b2 :: r2)
      else if 0xF0 ≤ b ∧ b ≤ 0xF4 then
        match rest with
        | [] => [replChar]
        | b2 :: r2 =>
            if isCont4 b b2 then
              match r2 with
              | [] => [replChar]
              | b3 :: r3 =>
                  if isCont b3 then
                    match r3 with
                    | [] => [replChar]
                    | b4 :: r4 =>
                        if isCont b4 then
                          Char.ofNat ((((b - 0xF0) * 0x40 + (b2 - 0x80)) * 0x40 +
                            (b3 - 0x80)) * 0x40 + (b4 - 0x80)) :: utf8DecodeF fuel r4
                        else replChar :: utf8DecodeF fuel (b4 :: r4)
                  else replChar :: utf8DecodeF fuel (b3 :: r3)
            else replChar :: utf8DecodeF fuel (b2 :: r2)
      else replChar :: utf8DecodeF fuel rest

/-- UTF-8 decoding of a byte run, with the fuel instantiated. -/
def utf8Decode (l : List Nat) : List Char := utf8DecodeF l.length l

/-- Flush-and-emit pass of percent-decoding: consecutive decoded bytes
form one run (held reversed in `acc`), decoded as UTF-8 when a literal
character or the end of the input is reached. -/
def pctEmit (acc : List Nat) : List UriTok → List Char
  | [] => utf8Decode acc.reverse
  | UriTok.byte b :: rest => pctEmit (b :: acc) rest
  | UriTok.chr c :: rest => utf8Decode acc.reverse ++ c :: pctEmit [] rest

/-- Model of `urllib.parse.unquote` on the code-point sequence. -/
def unquoteChars (l : List Char) : List Char :=
  pctEmit [] (pctTokens l)

/-- The `len(p) >= 3 and p[0] == '/' and p[2] == ':'` test of the
source: at least three characters, a leading slash, a colon in third
position — the character between them is not constrained. -/
def isDriveSlash (d : List Char) : Bool :=
  match d with
  | a :: _ :: e :: _ => a == '/' && e == ':'
  | _ => false

/-- `os.sep` substitution applied on Windows, one character at a time. -/
def toWinSep (c : Char) : Char := if c == '/' then '\\' else c

/-- The Windows branch of the resolver: `lstrip('/')` (all leading
slashes) under the drive test, then global separator replacement. -/
def winFix (d : List Char) : List Char :=
  (if isDriveSlash d then d.dropWhile (fun c => c == '/') else d).map toWinSep

/-- The value of `os.name` distinguishing the two behaviours of the
resolver: `posix`, or `nt` (called `windows` in the specification). -/
inductive OsName
  | posix
  | windows
deriving DecidableEq

/-- `parse_rekordbox_location`: scheme-prefix strip, percent-decode, and
the Windows drive/separator fix-up. -/
def parse_rekordbox_location (location : String) (osname : OsName) : String :=
  let decoded := unquoteChars (stripFileScheme location.data)
  match osname with
  | OsName.posix => ⟨decoded⟩
  | OsName.windows => ⟨winFix decoded⟩

example : parse_rekordbox_location "file://localhost/Users/dj/Music/track.mp3" OsName.posix
    = "/Users/dj/Music/track.mp3" := by decide
example : parse_rekordbox_location "file://localhost/E:/Music/track.mp3" OsName.windows
    = "E:\\Music\\track.mp3" := by decide
example : parse_rekordbox_location "file:///a%20b.mp3" OsName.posix = "/a b.mp3" := by decide
example : unquoteChars "%C3%A9t%C3%A9".data = "été".data := by decide
example : unquoteChars "a%zz%".data = "a%zz%".data := by decide
example : unquoteChars "%C3x%A9".data = [replChar, 'x', replChar] := by decide
example : parse_rekordbox_location "file://localhost/1:/x" OsName.windows = "1:\\x" := by decide
example : parse_rekordbox_location "no/scheme" OsName.posix = "no/scheme" := by decide

/-! ## Properties of the allow-list reconciliation -/

/-- The `TXXX:` branch of the loop is taken before the `APIC:` branch is
reached; the two prefixes are mutually exclusive. -/
theorem not_apic_of_txxx {tag : String} (h : startswith tag "TXXX:" = true) :
    startswith tag "APIC:" = false := by
  by_contra hc
  rw [Bool.not_eq_false] at hc
  unfold startswith at h hc
  rw [List.isPrefixOf_iff_prefix] at h hc
  obtain ⟨u, hu⟩ := h
  obtain ⟨v, hv⟩ := hc
  have e1 : tag.data.take 5 = "TXXX:".data := by
    rw [← hu]; exact List.take_left' (by decide)
  have e2 : tag.data.take 5 = "APIC:".data := by
    rw [← hv]; exact List.take_left' (by decide)
  exact absurd (e1 ▸ e2) (by decide)

/-- Claim C1: `clean_mp3_metadata` marks a key for deletion exactly when
it is not a cover-art (`APIC`-family) key and not in the allow-list; the
surviving keys are allow-listed or cover-art (soundness); every key
neither allow-listed nor cover-art lands in the delete set
(completeness); and no cover-art key is ever marked for deletion. -/
theorem claim_C1 (keep : List String) :
    (∀ tag : String, shouldDelete keep tag = true ↔
        (isCoverArtKey tag = false ∧ tag ∉ keep))
  ∧ (∀ tags : TagCollection, ∀ p : TagEntry, p ∈ survivingTags tags keep →
        p.1 ∈ keep ∨ isCoverArtKey p.1 = true)
  ∧ (∀ tags : TagCollection, ∀ p : TagEntry, p ∈ tags → p.1 ∉ keep →
        isCoverArtKey p.1 = false → p.1 ∈ deleteSetKeys tags keep)
  ∧ (∀ tags : TagCollection, ∀ k : String, k ∈ deleteSetKeys tags keep →
        isCoverArtKey k = false) := by
  have core : ∀ tag : String, shouldDelete keep tag = true ↔
      (isCoverArtKey tag = false ∧ tag ∉ keep) := by
    intro tag
    unfold shouldDelete isCoverArtKey
    by_cases ht : startswith tag "TXXX:" = true
    · simp [ht, not_apic_of_txxx ht]
    · rw [Bool.not_eq_true] at ht
      by_cases ha : startswith tag "APIC:" = true
      · simp [ht, ha]
      · rw [Bool.not_eq_true] at ha
        simp [ht, ha]
  refine ⟨core, ?_, ?_, ?_⟩
  · intro tags p hp
    unfold survivingTags at hp
    rw [List.mem_filter] at hp
    have hnd : shouldDelete keep p.1 = false := by simpa using hp.2
    by_cases hc : isCoverArtKey p.1 = true
    · exact Or.inr hc
    · rw [Bool.not_eq_true] at hc
      left
      by_contra hk
      have := (core p.1).mpr ⟨hc, hk⟩
      rw [hnd] at this
      exact absurd this (by decide)
  · intro tags p hp hk hc
    unfold deleteSetKeys
    rw [List.mem_filter]
    exact ⟨List.mem_map_of_mem _ hp, (core p.1).mpr ⟨hc, hk⟩⟩
  · intro tags k hk
    unfold deleteSetKeys at hk
    rw [List.mem_filter] at hk
    exact ((core k).mp hk.2).1

/-- Witness for C1 on the scenario collection of the specification. -/
theorem claim_C1_witness :
    ("TBPM" ∈ deleteSetKeys
        [("TALB", "X"), ("TBPM", "120"), ("TXXX:FOO", "y"), ("APIC:", "img")] ["TALB"])
  ∧ ("TXXX:FOO" ∈ deleteSetKeys
        [("TALB", "X"), ("TBPM", "120"), ("TXXX:FOO", "y"), ("APIC:", "img")] ["TALB"]) := by
  have h := claim_C1 ["TALB"]
  exact ⟨h.2.2.1 _ ("TBPM", "120") (by decide) (by decide) (by decide),
         h.2.2.1 _ ("TXXX:FOO", "y") (by decide) (by decide) (by decide)⟩

/-- Claim C4: a collection with no tags at all is a successful no-op for
the cleanup pass — nothing is deleted, nothing is written, and `main`
does not count the file as an error.  This covers both the genuinely
empty container and the file with no container at all (where the source
returns `True` early). -/
theorem claim_C4 (keep : List String) :
    clean_mp3_metadata (some []) keep = (some [], CleanResult.removed 0)
  ∧ deleteSetKeys [] keep = []
  ∧ mainDispatch (clean_mp3_metadata (some []) keep).2 = FileReport.noChange
  ∧ clean_mp3_metadata none keep = (none, CleanResult.noTags)
  ∧ mainDispatch (clean_mp3_metadata none keep).2 = FileReport.cleaned 1 :=
  ⟨rfl, rfl, rfl, rfl, rfl⟩

/-- Claim C9: the cleanup pass is idempotent — on an already-reconciled
collection the delete set is empty and no write happens. -/
theorem claim_C9 (tags : TagCollection) (keep : List String) :
    deleteSetKeys (survivingTags tags keep) keep = []
  ∧ clean_mp3_metadata (some (survivingTags tags keep)) keep
      = (some (survivingTags tags keep), CleanResult.removed 0) := by
  have h : deleteSetKeys (survivingTags tags keep) keep = [] := by
    unfold deleteSetKeys survivingTags
    rw [List.filter_eq_nil_iff]
    intro a ha
    rw [List.mem_map] at ha
    obtain ⟨p, hp, rfl⟩ := ha
    rw [List.mem_filter] at hp
    have h2 : shouldDelete keep p.1 = false := by simpa using hp.2
    simp [h2]
  refine ⟨h, ?_⟩
  unfold clean_mp3_metadata
  simp [h]

/-! ## Properties of the BPM/key overwrite -/

/-- The three frames added by `update_mp3_tags` on success, in add
order. -/
def newBpmTags (q : ℚ) (key : String) : TagCollection :=
  [("TBPM", toString (ratTrunc q)), ("TKEY", key), ("TXXX:INITIALKEY", key)]

/-- Head unfolding of the four-fold deletion. -/
theorem erase4_cons (p : TagEntry) (t : TagCollection) :
    erase4 (p :: t) = if p.1 ∈ bpmDelKeys then erase4 t else p :: erase4 t := by
  by_cases h1 : p.1 = "TBPM" <;> by_cases h2 : p.1 = "TKEY" <;>
    by_cases h3 : p.1 = "TXXX:BPM" <;> by_cases h4 : p.1 = "TXXX:INITIALKEY" <;>
    simp [erase4, eraseTag, List.filter_cons, bpmDelKeys, h1, h2, h3, h4]

/-- The four-fold deletion is the filter keeping the non-BPM keys. -/
theorem erase4_eq_filter (t : TagCollection) :
    erase4 t = t.filter (fun p => !(decide (p.1 ∈ bpmDelKeys))) := by
  induction t with
  | nil => rfl
  | cons q t ih =>
      rw [erase4_cons, List.filter_cons]
      by_cases h : q.1 ∈ bpmDelKeys
      · simp [h, ih]
      · simp [h, ih]

/-- Membership after the four-fold deletion. -/
theorem mem_erase4 {p : TagEntry} {t : TagCollection} :
    p ∈ erase4 t ↔ p ∈ t ∧ p.1 ∉ bpmDelKeys := by
  rw [erase4_eq_filter, List.mem_filter]
  simp

/-- The four-fold deletion distributes over append. -/
theorem erase4_append (s t : TagCollection) :
    erase4 (s ++ t) = erase4 s ++ erase4 t := by
  simp [erase4, eraseTag, List.filter_append]

/-- The four-fold deletion is idempotent. -/
theorem erase4_idem (t : TagCollection) : erase4 (erase4 t) = erase4 t := by
  rw [erase4_eq_filter t, erase4_eq_filter, List.filter_filter]
  simp

/-- The freshly added frames all carry keys the deletion removes. -/
theorem erase4_newBpmTags (q : ℚ) (key : String) :
    erase4 (newBpmTags q key) = [] := rfl

/-- `setItem` on a collection free of the key appends the new entry. -/
theorem setItem_append (t : TagCollection) (k v : String)
    (h : ∀ p ∈ t, p.1 ≠ k) : setItem t k v = t ++ [(k, v)] := by
  have ha : t.any (fun p => p.1 == k) = false := by
    rw [List.any_eq_false]
    intro p hp
    simpa using h p hp
  simp [setItem, ha]

/-- Normal form of a successful `update_mp3_tags` run: the four stale
frames are gone and the three new frames sit at the end, in add order. -/
theorem update_ok (disk : Option TagCollection) (bpm key : String) (q : ℚ)
    (h : pyFloat bpm = some q) :
    update_mp3_tags disk bpm key
      = (some (erase4 (disk.getD []) ++ newBpmTags q key), UpdateResult.success) := by
  have k1 : ∀ p ∈ erase4 (disk.getD []), p.1 ≠ "TBPM" := by
    intro p hp e
    exact (mem_erase4.mp hp).2 (by rw [e]; decide)
  have k2 : ∀ p ∈ erase4 (disk.getD []) ++ [("TBPM", toString (ratTrunc q))],
      p.1 ≠ "TKEY" := by
    intro p hp
    rcases List.mem_append.mp hp with hl | hr
    · intro e; exact (mem_erase4.mp hl).2 (by rw [e]; decide)
    · rw [List.mem_singleton] at hr
      rw [hr]
      simp
  have k3 : ∀ p ∈ (erase4 (disk.getD []) ++ [("TBPM", toString (ratTrunc q))]) ++
      [("TKEY", key)], p.1 ≠ "TXXX:INITIALKEY" := by
    intro p hp
    rcases List.mem_append.mp hp with hl | hr
    · rcases List.mem_append.mp hl with hll | hlr
      · intro e; exact (mem_erase4.mp hll).2 (by rw [e]; decide)
      · rw [List.mem_singleton] at hlr
        rw [hlr]
        simp
    · rw [List.mem_singleton] at hr
      rw [hr]
      simp
  simp only [update_mp3_tags, h]
  rw [setItem_append (erase4 (disk.getD [])) "TBPM" (toString (ratTrunc q)) k1]
  rw [setItem_append (erase4 (disk.getD []) ++ [("TBPM", toString (ratTrunc q))])
    "TKEY" key k2]
  rw [setItem_append ((erase4 (disk.getD []) ++ [("TBPM", toString (ratTrunc q))]) ++
    [("TKEY", key)]) "TXXX:INITIALKEY" key k3]
  simp [newBpmTags, List.append_assoc]

/-- Entries of the deleted part never carry a key from the delete list. -/
theorem countP_erase4_zero (t : TagCollection) (k : String) (hk : k ∈ bpmDelKeys) :
    (erase4 t).countP (fun p => p.1 == k) = 0 := by
  rw [List.countP_eq_zero]
  intro p hp
  have h2 := (mem_erase4.mp hp).2
  simp only [beq_iff_eq]
  intro e
  exact h2 (e ▸ hk)

/-- Claim C2: on a numeric BPM string the overwrite pass deletes only
the four BPM/key frames, leaves every other entry byte-identical, and
the result carries exactly one `TBPM` (the truncated integer text), one
`TKEY` and one `TXXX:INITIALKEY` (the key verbatim), and no `TXXX:BPM`. -/
theorem claim_C2 (T : TagCollection) (bpm key : String) (q : ℚ)
    (h : pyFloat bpm = some q) :
    ∃ R : TagCollection,
      update_mp3_tags (some T) bpm key = (some R, UpdateResult.success)
      ∧ R.filter (fun p => !(decide (p.1 ∈ bpmDelKeys)))
          = T.filter (fun p => !(decide (p.1 ∈ bpmDelKeys)))
      ∧ R.countP (fun p => p.1 == "TBPM") = 1
      ∧ ("TBPM", toString (ratTrunc q)) ∈ R
      ∧ R.countP (fun p => p.1 == "TKEY") = 1
      ∧ ("TKEY", key) ∈ R
      ∧ R.countP (fun p => p.1 == "TXXX:INITIALKEY") = 1
      ∧ ("TXXX:INITIALKEY", key) ∈ R
      ∧ R.countP (fun p => p.1 == "TXXX:BPM") = 0 := by
  refine ⟨erase4 T ++ newBpmTags q key, update_ok (some T) bpm key q h, ?_, ?_, ?_, ?_, ?_, ?_, ?_, ?_⟩
  · rw [List.filter_append]
    have h1 : (erase4 T).filter (fun p => !(decide (p.1 ∈ bpmDelKeys))) = erase4 T := by
      rw [List.filter_eq_self]
      intro p hp
      simpa using (mem_erase4.mp hp).2
    have h2 : (newBpmTags q key).filter (fun p => !(decide (p.1 ∈ bpmDelKeys))) = [] := rfl
    rw [h1, h2, List.append_nil, erase4_eq_filter]
  · rw [List.countP_append, countP_erase4_zero T "TBPM" (by decide)]
    rfl
  · simp [newBpmTags]
  · rw [List.countP_append, countP_erase4_zero T "TKEY" (by decide)]
    rfl
  · simp [newBpmTags]
  · rw [List.countP_append, countP_erase4_zero T "TXXX:INITIALKEY" (by decide)]
    rfl
  · simp [newBpmTags]
  · rw [List.countP_append, countP_erase4_zero T "TXXX:BPM" (by decide)]
    rfl

/-- Witness for C2 on the specification's overwrite scenario: BPM
`"95.4"`, key `"5A"`, stale `TBPM`/`TKEY` entries. -/
theorem claim_C2_witness :
    ("TBPM", "95") ∈ ((update_mp3_tags (some [("TBPM", "100"), ("TKEY", "3A")]) "95.4" "5A").1.getD [])
  ∧ ((update_mp3_tags (some [("TBPM", "100"), ("TKEY", "3A")]) "95.4" "5A").1.getD []).countP
      (fun p => p.1 == "TXXX:BPM") = 0 := by
  obtain ⟨R, hR, hfil, hc1, hm1, hc2, hm2, hc3, hm3, hc4⟩ :=
    claim_C2 [("TBPM", "100"), ("TKEY", "3A")] "95.4" "5A" (mkRat 477 5) (by decide)
  rw [hR]
  constructor
  · exact (by decide : toString (ratTrunc (mkRat 477 5)) = "95") ▸ hm1
  · exact hc4

/-- Claim C3: on a BPM string that does not parse, the overwrite pass
fails with the invalid-BPM outcome and the on-disk tag collection is
returned unchanged — the exception fires before `audio.save`. -/
theorem claim_C3 (disk : Option TagCollection) (bpm key : String)
    (h : pyFloat bpm = none) :
    update_mp3_tags disk bpm key = (disk, UpdateResult.invalidBpmFormat) := by
  simp only [update_mp3_tags, h]

/-- Witness for C3 on the non-numeric string `"abc"`. -/
theorem claim_C3_witness :
    pyFloat "abc" = none
  ∧ update_mp3_tags (some [("TBPM", "100")]) "abc" "5A"
      = (some [("TBPM", "100")], UpdateResult.invalidBpmFormat) :=
  ⟨by decide, claim_C3 (some [("TBPM", "100")]) "abc" "5A" (by decide)⟩

/-- Claim C5: the stored BPM text is the truncation, not the rounding:
with raw BPM `"127.9"` the result holds exactly one `TBPM` entry, with
text `"127"` and not `"128"`, whatever the prior collection and key. -/
theorem claim_C5 (T : TagCollection) (key : String) :
    ("TBPM", "127") ∈ ((update_mp3_tags (some T) "127.9" key).1.getD [])
  ∧ ((update_mp3_tags (some T) "127.9" key).1.getD []).countP (fun p => p.1 == "TBPM") = 1
  ∧ ((update_mp3_tags (some T) "127.9" key).1.getD []).countP
      (fun p => p == ("TBPM", "128")) = 0 := by
  have h : pyFloat "127.9" = some (mkRat 1279 10) := by decide
  rw [update_ok (some T) "127.9" key (mkRat 1279 10) h]
  have hs : toString (ratTrunc (mkRat 1279 10)) = "127" := by decide
  refine ⟨?_, ?_, ?_⟩
  · simp [newBpmTags, hs]
  · simp only [Option.getD_some]
    rw [List.countP_append, countP_erase4_zero T "TBPM" (by decide)]
    rfl
  · simp only [Option.getD_some]
    rw [List.countP_eq_zero]
    intro p hp hbeq
    rw [beq_iff_eq] at hbeq
    subst hbeq
    rcases List.mem_append.mp hp with hl | hr
    · exact (mem_erase4.mp hl).2 (by decide)
    · rw [newBpmTags, hs] at hr
      simp only [List.mem_cons, List.not_mem_nil, or_false] at hr
      rcases hr with h1 | h1 | h1
      · exact absurd (congrArg Prod.snd h1) (by decide)
      · exact absurd (congrArg Prod.fst h1) (by simp)
      · exact absurd (congrArg Prod.fst h1) (by simp)

/-- Claim C8: the overwrite pass is a stable fixed point — running it a
second time with the same numeric BPM string and key changes nothing. -/
theorem claim_C8 (disk : Option TagCollection) (bpm key : String) (q : ℚ)
    (h : pyFloat bpm = some q) :
    update_mp3_tags (update_mp3_tags disk bpm key).1 bpm key
      = update_mp3_tags disk bpm key := by
  rw [update_ok disk bpm key q h]
  show update_mp3_tags (some (erase4 (disk.getD []) ++ newBpmTags q key)) bpm key = _
  rw [update_ok (some (erase4 (disk.getD []) ++ newBpmTags q key)) bpm key q h]
  rw [Option.getD_some, erase4_append, erase4_idem, erase4_newBpmTags, List.append_nil]

/-- Witness for C8 at BPM `"128.0"`, key `"8A"`. -/
theorem claim_C8_witness :
    update_mp3_tags (update_mp3_tags (some [("TALB", "X"), ("TBPM", "100")]) "128.0" "8A").1
      "128.0" "8A"
      = update_mp3_tags (some [("TALB", "X"), ("TBPM", "100")]) "128.0" "8A" :=
  claim_C8 (some [("TALB", "X"), ("TBPM", "100")]) "128.0" "8A" (mkRat 128 1) (by decide)

/-- Claim C10: a file with no tag container at all does not make the
overwrite pass fail — the container is created empty and the run ends
successfully with exactly the three new frames. -/
theorem claim_C10 (bpm key : String) (q : ℚ) (h : pyFloat bpm = some q) :
    update_mp3_tags none bpm key
      = (some [("TBPM", toString (ratTrunc q)), ("TKEY", key), ("TXXX:INITIALKEY", key)],
         UpdateResult.success) := by
  have e := update_ok none bpm key q h
  simpa [newBpmTags] using e

/-- Witness for C10 at BPM `"95.4"`, key `"5A"`. -/
theorem claim_C10_witness :
    update_mp3_tags none "95.4" "5A"
      = (some [("TBPM", "95"), ("TKEY", "5A"), ("TXXX:INITIALKEY", "5A")],
         UpdateResult.success) := by
  rw [claim_C10 "95.4" "5A" (mkRat 477 5) (by decide)]
  decide

/-! ## Properties of the location resolver -/

/-- Claim C6: scheme prefixes are stripped in order of specificity —
`file://localhost` first, then bare `file://`, otherwise the string is
used as-is — and the remainder is percent-decoded; with the concrete
round-trip of the specification. -/
theorem claim_C6 :
    (∀ r : List Char,
        parse_rekordbox_location ⟨lhChars ++ r⟩ OsName.posix = ⟨unquoteChars r⟩)
  ∧ (∀ r : List Char, lhChars.isPrefixOf (fsChars ++ r) = false →
        parse_rekordbox_location ⟨fsChars ++ r⟩ OsName.posix = ⟨unquoteChars r⟩)
  ∧ (∀ s : String, lhChars.isPrefixOf s.data = false → fsChars.isPrefixOf s.data = false →
        parse_rekordbox_location s OsName.posix = ⟨unquoteChars s.data⟩)
  ∧ parse_rekordbox_location "file://localhost/Users/dj/Music/track.mp3" OsName.posix
      = "/Users/dj/Music/track.mp3" := by
  refine ⟨?_, ?_, ?_, by decide⟩
  · intro r
    have hp : lhChars.isPrefixOf (lhChars ++ r) = true := by
      rw [List.isPrefixOf_iff_prefix]
      exact List.prefix_append lhChars r
    show (⟨unquoteChars (stripFileScheme (lhChars ++ r))⟩ : String) = ⟨unquoteChars r⟩
    rw [stripFileScheme, hp]
    simp [List.drop_left]
  · intro r hlh
    have hp : fsChars.isPrefixOf (fsChars ++ r) = true := by
      rw [List.isPrefixOf_iff_prefix]
      exact List.prefix_append fsChars r
    show (⟨unquoteChars (stripFileScheme (fsChars ++ r))⟩ : String) = ⟨unquoteChars r⟩
    rw [stripFileScheme, hlh, hp]
    simp [List.drop_left]
  · intro s hlh hfs
    show (⟨unquoteChars (stripFileScheme s.data)⟩ : String) = ⟨unquoteChars s.data⟩
    rw [stripFileScheme, hlh, hfs]
    simp

/-- Witness for C6: a bare-scheme location with a percent escape, and an
unprefixed location. -/
theorem claim_C6_witness :
    parse_rekordbox_location "file:///a%20b.mp3" OsName.posix = "/a b.mp3"
  ∧ parse_rekordbox_location "relative/path.mp3" OsName.posix = "relative/path.mp3" := by
  have h := claim_C6
  constructor
  · have e : ("file:///a%20b.mp3" : String) = ⟨fsChars ++ "/a%20b.mp3".data⟩ := by decide
    rw [e, h.2.1 "/a%20b.mp3".data (by decide)]
    decide
  · rw [h.2.2.1 "relative/path.mp3" (by decide) (by decide)]
    decide

/-- Modelled from the claim's wording for C7: the strip condition as the
specification states it — a leading slash, then a single *letter*, then
a colon — with a single leading slash removed. -/
def isDriveLetterClaim (d : List Char) : Bool :=
  match d with
  | '/' :: c :: ':' :: _ => c.isAlpha
  | _ => false

/-- Modelled from the claim's wording for C7: strip one leading slash
exactly under `isDriveLetterClaim`, then replace separators. -/
def winFixClaim (d : List Char) : List Char :=
  (if isDriveLetterClaim d then d.drop 1 else d).map toWinSep

/-- Counterexample for C7 as stated: on `/1:/Music/track.mp3` (digit in
drive position) the source strips the slash although the claim's
letter-pattern does not match, so the claimed output differs from the
code's. -/
theorem claim_C7_counterexample :
    parse_rekordbox_location "file://localhost/1:/Music/track.mp3" OsName.windows
      = "1:\\Music\\track.mp3"
  ∧ winFixClaim (unquoteChars (stripFileScheme "file://localhost/1:/Music/track.mp3".data))
      = "\\1:\\Music\\track.mp3".data
  ∧ decide (parse_rekordbox_location "file://localhost/1:/Music/track.mp3" OsName.windows
      = ⟨winFixClaim (unquoteChars
          (stripFileScheme "file://localhost/1:/Music/track.mp3".data))⟩) = false :=
  ⟨by decide, by decide, by decide⟩

/-- Claim C7 as amended: on Windows the resolver strips all leading
slashes when and only when the decoded string has at least three
characters with a slash first and a colon third — the character between
them is not required to be a letter — and then replaces every forward
slash with a backslash; the drive-letter round-trip of the
specification holds. -/
theorem claim_C7_amended :
    (∀ d : List Char, isDriveSlash d = true ↔ ∃ c rest, d = '/' :: c :: ':' :: rest)
  ∧ (∀ d : List Char, isDriveSlash d = true →
        winFix d = (d.dropWhile (fun c => c == '/')).map toWinSep)
  ∧ (∀ d : List Char, isDriveSlash d = false → winFix d = d.map toWinSep)
  ∧ (∀ s : String, parse_rekordbox_location s OsName.windows
        = ⟨winFix (unquoteChars (stripFileScheme s.data))⟩)
  ∧ parse_rekordbox_location "file://localhost/E:/Music/track.mp3" OsName.windows
      = "E:\\Music\\track.mp3" := by
  refine ⟨?_, ?_, ?_, fun s => rfl, by decide⟩
  · intro d
    rcases d with _ | ⟨a, _ | ⟨b, _ | ⟨e, rest⟩⟩⟩
    · simp [isDriveSlash]
    · simp [isDriveSlash]
    · simp [isDriveSlash]
    · simp only [isDriveSlash]
      constructor
      · intro hb
        rw [Bool.and_eq_true, beq_iff_eq, beq_iff_eq] at hb
        exact ⟨b, rest, by rw [hb.1, hb.2]⟩
      · rintro ⟨c, r', he⟩
        injection he with h1 h2
        injection h2 with h3 h4
        injection h4 with h5 h6
        rw [h1, h5]
        decide
  · intro d hd
    rw [winFix, hd]
    simp
  · intro d hd
    rw [winFix, hd]
    simp

/-- Witness for the amended C7: the drive-slash branch on `/E:/a`, and
the unstripped branch on a relative path. -/
theorem claim_C7_amended_witness :
    winFix "/E:/a".data = "E:\\a".data
  ∧ winFix "relative/a".data = "relative\\a".data
  ∧ isDriveSlash "/E:/a".data = true := by
  have h := claim_C7_amended
  refine ⟨?_, ?_, (h.1 "/E:/a".data).mpr ⟨'E', "/a".data, by decide⟩⟩
  · rw [h.2.1 "/E:/a".data (by decide)]
    decide
  · rw [h.2.2.1 "relative/a".data (by decide)]
    decide
